import Mathlib

/-!
Verification of the retrieval-and-assembly pipeline of the Vibe Agent
repository: data model (chunks, candidates, packed context), hybrid
scoring, deduplication, greedy context packing, graph expansion, error
taxonomy, and the chat-completion retrieval path.

The backend retrieval modules themselves (for example
`src/retrieval/ranking.py` and `src/retrieval/context_packer.py`) are
referenced by the documentation and test walkthroughs of the repository
but their bodies are not part of the repository snapshot; such
definitions are modelled from the specification and marked
`Modelled from the spec:` in their doc comments.  The chat and indexing
endpoint code quoted in `walkthrough1.md` is present verbatim and is
embedded directly.

Scores are modelled as rationals (the code uses floating point; all
quantities involved are exact decimal fractions, so ℚ is a faithful
executable model).
-/

namespace VibeAgent

/-- A contiguous span of source code, the retrieval unit (spec section 3:
stable identifier, owning file path, 1-indexed inclusive line numbers,
raw text, precomputed token count). -/
structure Chunk where
  id : Nat
  filePath : String
  startLine : Nat
  endLine : Nat
  text : String
  tokenCount : Nat
  deriving Repr, DecidableEq

/-- A chunk enriched with retrieval-time scores (spec section 3). -/
structure Candidate where
  chunk : Chunk
  semanticScore : ℚ
  graphScore : ℚ
  healthScore : ℚ
  recencyScore : ℚ
  deriving Repr, DecidableEq

/-- The weight quadruple of the hybrid ranker (configuration surface). -/
structure Weights where
  semantic : ℚ
  graph : ℚ
  health : ℚ
  recency : ℚ
  deriving Repr, DecidableEq

/-- Modelled from the spec: the default ranking weights, matching the
constants `SEMANTIC_WEIGHT = 0.60`, `GRAPH_WEIGHT = 0.25`,
`HEALTH_WEIGHT = 0.10`, `RECENCY_WEIGHT = 0.05` quoted from
`src/retrieval/ranking.py` in `docs/USER_GUIDE.md` and the scoring block
of `docs/ARCHITECTURE.md`. -/
def defaultWeights : Weights :=
  { semantic := 60 / 100, graph := 25 / 100, health := 10 / 100, recency := 5 / 100 }

/-- Modelled from the spec: the combined hybrid score of a candidate,
`w_semantic * semantic + w_graph * graph + w_health * health +
w_recency * recency` (spec section 4.3, `docs/ARCHITECTURE.md` scoring
block). -/
def combinedScore (w : Weights) (c : Candidate) : ℚ :=
  w.semantic * c.semanticScore + w.graph * c.graphScore
    + w.health * c.healthScore + w.recency * c.recencyScore

/-- Why a considered chunk was excluded from the packed context
(spec section 4.5). -/
inductive ExclusionReason where
  | over_budget
  | deduplicated
  deriving Repr, DecidableEq

/-- The final assembled payload (spec section 3): selected chunks, the
diagnostic list of excluded chunks, total token count and the budget it
was packed against. -/
structure PackedContext where
  included : List Chunk
  excluded : List (Chunk × ExclusionReason)
  totalTokens : Nat
  budget : Nat
  deriving Repr, DecidableEq

/-- Modelled from the spec: the greedy packing loop of
`src/retrieval/context_packer.py` (spec section 4.5).  Walks the ranked,
deduplicated chunks in order keeping a running token total; a chunk
whose precomputed token count still fits within the budget is included
whole, any other chunk is recorded as excluded with reason
`over_budget` and is never revisited. -/
def packGo (budget : Nat) : Nat → List Chunk → List Chunk × List (Chunk × ExclusionReason) × Nat
  | used, [] => ([], [], used)
  | used, c :: rest =>
    if used + c.tokenCount ≤ budget then
      let r := packGo budget (used + c.tokenCount) rest
      (c :: r.1, r.2.1, r.2.2)
    else
      let r := packGo budget used rest
      (r.1, (c, ExclusionReason.over_budget) :: r.2.1, r.2.2)

/-- Modelled from the spec: the context packer entry point, producing a
Packed Context from the ranked deduplicated chunk list and the token
budget (spec section 4.5). -/
def packContext (budget : Nat) (cands : List Chunk) : PackedContext :=
  let r := packGo budget 0 cands
  { included := r.1, excluded := r.2.1, totalTokens := r.2.2, budget := budget }

/-- Utilization of a packed context: tokens used over token budget. -/
def utilization (pc : PackedContext) : ℚ :=
  (pc.totalTokens : ℚ) / (pc.budget : ℚ)

/-- Number of lines in the (1-indexed, inclusive) span of a chunk. -/
def spanLen (c : Chunk) : Nat := c.endLine + 1 - c.startLine

/-- Number of lines shared by the spans of two chunks (0 when the spans
are disjoint, by truncated subtraction). -/
def overlapLen (a b : Chunk) : Nat :=
  min a.endLine b.endLine + 1 - max a.startLine b.startLine

/-- Modelled from the spec: two chunks overlap substantially when they
live in the same file and the shared line count reaches the threshold
fraction of the smaller span (spec section 4.4, default threshold 50
percent of the smaller span). -/
def spanOverlap (thr : ℚ) (a b : Chunk) : Bool :=
  a.filePath == b.filePath
    && decide (thr * (min (spanLen a) (spanLen b) : ℚ) ≤ (overlapLen a b : ℚ))

/-- Modelled from the spec: the default dedup overlap threshold, 50
percent of the smaller span (spec section 4.4). -/
def defaultOverlapThreshold : ℚ := 1 / 2

/-- Modelled from the spec: the removal criterion of the deduplicator
against one kept candidate (spec section 4.4): substantial same-file
span overlap, or an exact content duplicate — identical chunk text,
modelling the identical text hash of the spec, which applies across
files. -/
def dupAgainst (thr : ℚ) (k c : Candidate) : Bool :=
  spanOverlap thr k.chunk c.chunk || k.chunk.text == c.chunk.text

/-- Modelled from the spec: the deduplication loop of spec section 4.4.
Walks the ranked candidates in order; a candidate whose span overlaps
substantially with an already kept (hence higher-ranked) candidate, or
whose text is an exact duplicate of a kept candidate, is dropped,
otherwise it is kept, so only the highest-ranked member of each
overlapping or duplicate group survives. -/
def dedupGo (thr : ℚ) : List Candidate → List Candidate → List Candidate
  | _, [] => []
  | kept, c :: rest =>
    if kept.any (fun k => dupAgainst thr k c) then
      dedupGo thr kept rest
    else
      c :: dedupGo thr (kept ++ [c]) rest

/-- Modelled from the spec: the deduplicator applied to a ranked
candidate list (spec section 4.4), removing both substantial same-file
span overlaps and exact content duplicates. -/
def deduplicate (thr : ℚ) (l : List Candidate) : List Candidate :=
  dedupGo thr [] l

/-- The higher-ranked candidate of the dedup scenario: file `f`, lines
10 to 50. -/
def candSpanA : Candidate :=
  { chunk := { id := 1, filePath := "f", startLine := 10, endLine := 50, text := "s", tokenCount := 100 },
    semanticScore := 9 / 10, graphScore := 0, healthScore := 1 / 2, recencyScore := 0 }

/-- The lower-ranked candidate of the dedup scenario: same file, lines
30 to 60 (21 shared lines, about 68 percent of the smaller span). -/
def candSpanB : Candidate :=
  { chunk := { id := 2, filePath := "f", startLine := 30, endLine := 60, text := "t", tokenCount := 100 },
    semanticScore := 8 / 10, graphScore := 0, healthScore := 1 / 2, recencyScore := 0 }

/-- The higher-ranked candidate of the exact-duplicate scenario:
file `g1`, text `dup`. -/
def candDupA : Candidate :=
  { chunk := { id := 3, filePath := "g1", startLine := 1, endLine := 4, text := "dup", tokenCount := 40 },
    semanticScore := 7 / 10, graphScore := 0, healthScore := 1 / 2, recencyScore := 0 }

/-- The lower-ranked candidate of the exact-duplicate scenario: a
different file with identical chunk text, as arises from re-chunking
boundary overlap. -/
def candDupB : Candidate :=
  { chunk := { id := 4, filePath := "g2", startLine := 7, endLine := 10, text := "dup", tokenCount := 40 },
    semanticScore := 6 / 10, graphScore := 0, healthScore := 1 / 2, recencyScore := 0 }

/-- Modelled from the spec: the output order of the hybrid ranker:
descending by combined score, ties broken by ascending chunk identifier
(spec section 4.3, ties never broken by insertion order).  `rankRel w a b`
says that `a` may come before `b`. -/
def rankRel (w : Weights) (a b : Candidate) : Prop :=
  combinedScore w b < combinedScore w a
    ∨ (combinedScore w a = combinedScore w b ∧ a.chunk.id ≤ b.chunk.id)

instance (w : Weights) (a b : Candidate) : Decidable (rankRel w a b) := by
  unfold rankRel
  infer_instance

instance (w : Weights) : IsTotal Candidate (rankRel w) where
  total a b := by
    rcases lt_trichotomy (combinedScore w a) (combinedScore w b) with h | h | h
    · exact Or.inr (Or.inl h)
    · rcases Nat.le_total a.chunk.id b.chunk.id with hid | hid
      · exact Or.inl (Or.inr ⟨h, hid⟩)
      · exact Or.inr (Or.inr ⟨h.symm, hid⟩)
    · exact Or.inl (Or.inl h)

instance (w : Weights) : IsTrans Candidate (rankRel w) where
  trans a b c hab hbc := by
    rcases hab with hab | ⟨hab, haid⟩
    · rcases hbc with hbc | ⟨hbc, _⟩
      · exact Or.inl (hbc.trans hab)
      · exact Or.inl (hbc ▸ hab)
    · rcases hbc with hbc | ⟨hbc, hbid⟩
      · exact Or.inl (hab ▸ hbc)
      · exact Or.inr ⟨hab.trans hbc, haid.trans hbid⟩

/-- Modelled from the spec: the hybrid ranker sorting step, stable and
deterministic: all candidates sorted descending by combined score, ties
broken by chunk identifier (spec section 4.3). -/
def rankCandidates (w : Weights) (l : List Candidate) : List Candidate :=
  l.insertionSort (rankRel w)

/-- The typed edges of the code graph: CALLS, CONTAINS, IMPORTS and
EXTENDS relationships (`docs/ARCHITECTURE.md`, Graph Systems). -/
inductive EdgeType where
  | callsE
  | containsE
  | importsE
  | extendsE
  deriving Repr, DecidableEq

/-- A directed typed edge of the code graph. -/
structure Edge where
  src : Nat
  etype : EdgeType
  dst : Nat
  deriving Repr, DecidableEq

/-- An entity returned by graph expansion, annotated with its hop
distance, the edge type it was first reached through, and its graph
relevance score. -/
structure GraphCandidate where
  entity : Nat
  hop : Nat
  etype : EdgeType
  score : ℚ
  deriving Repr, DecidableEq

/-- Outgoing edges of a node. -/
def neighborsOf (edges : List Edge) (n : Nat) : List Edge :=
  edges.filter (fun e => e.src == n)

/-- Keeps the first occurrence of each not-yet-seen node of a frontier
expansion, preserving discovery order. -/
def addNew (seen : List Nat) : List (Nat × EdgeType) → List (Nat × EdgeType)
  | [] => []
  | p :: rest => if p.1 ∈ seen then addNew seen rest else p :: addNew (p.1 :: seen) rest

/-- Modelled from the spec: breadth-first expansion by levels
(spec section 4.2); level `k` of the result holds the nodes first
reached at hop distance `k + 1` from the seed set, in a fixed order
(frontier order, then edge-list order), together with the edge type
they were reached through. -/
def bfsLevels (edges : List Edge) : Nat → List Nat → List Nat → List (List (Nat × EdgeType))
  | 0, _, _ => []
  | h + 1, seen, frontier =>
    let lvl := addNew seen
      (frontier.flatMap (fun n => (neighborsOf edges n).map (fun e => (e.dst, e.etype))))
    lvl :: bfsLevels edges h (seen ++ lvl.map Prod.fst) (lvl.map Prod.fst)

/-- Modelled from the spec: annotates the breadth-first levels starting
at hop distance `h`, scoring each entity with
`edge_weight * (1 / (1 + hop_distance))` (spec section 4.2). -/
def annotateLevels (edgeW : EdgeType → ℚ) : Nat → List (List (Nat × EdgeType)) → List GraphCandidate
  | _, [] => []
  | h, lvl :: rest =>
    lvl.map (fun p =>
        { entity := p.1, hop := h, etype := p.2, score := edgeW p.2 * (1 / (1 + (h : ℚ))) })
      ++ annotateLevels edgeW (h + 1) rest

/-- Modelled from the spec: the uncapped graph expansion: all entities
reachable from the seeds within `maxHops` hops, in breadth-first order
(lowest hop distance first, then insertion order), each annotated with
its graph relevance score (spec section 4.2). -/
def graphExpandAll (edges : List Edge) (maxHops : Nat) (edgeW : EdgeType → ℚ)
    (seeds : List Nat) : List GraphCandidate :=
  annotateLevels edgeW 1 (bfsLevels edges maxHops seeds seeds)

/-- Modelled from the spec: graph expansion truncated at the node cap:
the nodes beyond the cap are dropped from the fixed breadth-first
order, never sampled (spec section 4.2). -/
def graphExpand (edges : List Edge) (maxHops cap : Nat) (edgeW : EdgeType → ℚ)
    (seeds : List Nat) : List GraphCandidate :=
  (graphExpandAll edges maxHops edgeW seeds).take cap

/-- Modelled from the spec: the error taxonomy of spec section 7. -/
inductive RetrievalError where
  | indexUnavailable
  | graphUnavailable
  | invalidWeights
  | chunkHydrationFailure
  deriving Repr, DecidableEq

/-- Sum of the four ranking weights. -/
def weightSum (w : Weights) : ℚ :=
  w.semantic + w.graph + w.health + w.recency

/-- The floating-point tolerance on the weight sum, 1e-6
(spec section 8). -/
def weightTolerance : ℚ := 1 / 1000000

/-- Modelled from the spec: startup validation of the weight
configuration: the four weights must sum to 1.0 within tolerance,
otherwise the configuration is rejected with `InvalidWeights`
(spec sections 4.3 and 7). -/
def validateWeights (w : Weights) : Except RetrievalError Unit :=
  if |weightSum w - 1| ≤ weightTolerance then Except.ok ()
  else Except.error RetrievalError.invalidWeights

/-- A semantic search result: a chunk with its similarity score. -/
structure SemanticHit where
  chunk : Chunk
  similarity : ℚ
  deriving Repr, DecidableEq

/-- The external read-only stores a query runs against.  `none` for the
vector store means empty or unreachable; `none` for the graph store
means unreachable (`GraphUnavailable`). -/
structure RetrievalEnv where
  vectorHits : Option (List SemanticHit)
  graphEdges : Option (List Edge)
  chunkOf : Nat → Option Chunk
  healthOf : String → Option ℚ
  recencyOf : Chunk → ℚ

/-- Modelled from the spec: a semantic hit enriched into a candidate:
its own similarity, the given graph score, the health score of its file
(neutral midpoint 0.5 when the health store has no entry), and its
recency score (spec section 4.3). -/
def hydrateSemantic (env : RetrievalEnv) (h : SemanticHit) (g : ℚ) : Candidate :=
  { chunk := h.chunk, semanticScore := h.similarity, graphScore := g,
    healthScore := (env.healthOf h.chunk.filePath).getD (1 / 2),
    recencyScore := env.recencyOf h.chunk }

/-- Graph score of a chunk among the expansion results, defaulting to 0
when the chunk was not reached by graph expansion (spec section 4.3:
candidates lacking a signal use 0 for the missing signal). -/
def graphScoreFor (gcands : List GraphCandidate) (c : Chunk) : ℚ :=
  match gcands.find? (fun g => g.entity == c.id) with
  | some g => g.score
  | none => 0

/-- Modelled from the spec: candidates discovered only by graph
expansion, hydrated from the chunk store with semantic score 0; an
entity whose chunk cannot be loaded is dropped
(`ChunkHydrationFailure`, spec section 7). -/
def graphOnlyCandidates (env : RetrievalEnv) (hits : List SemanticHit)
    (gcands : List GraphCandidate) : List Candidate :=
  (gcands.filter (fun g => !(hits.any (fun h => h.chunk.id == g.entity)))).filterMap
    (fun g => (env.chunkOf g.entity).map (fun c =>
      { chunk := c, semanticScore := 0, graphScore := g.score,
        healthScore := (env.healthOf c.filePath).getD (1 / 2),
        recencyScore := env.recencyOf c }))

/-- Configuration of a single retrieval run. -/
structure PipelineConfig where
  weights : Weights
  overlapThreshold : ℚ
  budget : Nat
  maxHops : Nat
  nodeCap : Nat
  edgeW : EdgeType → ℚ

/-- Modelled from the spec: the full retrieval pipeline of spec
section 2: semantic search (fatal `IndexUnavailable` on an empty or
unreachable vector store), best-effort graph expansion (an unreachable
graph store degrades to an empty expansion instead of aborting), hybrid
ranking, deduplication and context packing. -/
def runQuery (cfg : PipelineConfig) (env : RetrievalEnv) : Except RetrievalError PackedContext :=
  match env.vectorHits with
  | none => Except.error RetrievalError.indexUnavailable
  | some [] => Except.error RetrievalError.indexUnavailable
  | some (h :: hs) =>
    let gcands :=
      match env.graphEdges with
      | none => []
      | some edges =>
        graphExpand edges cfg.maxHops cfg.nodeCap cfg.edgeW ((h :: hs).map (fun x => x.chunk.id))
    let cands := (h :: hs).map (fun x => hydrateSemantic env x (graphScoreFor gcands x.chunk))
      ++ graphOnlyCandidates env (h :: hs) gcands
    Except.ok (packContext cfg.budget
      ((deduplicate cfg.overlapThreshold (rankCandidates cfg.weights cands)).map Candidate.chunk))

/-- The pipeline restricted to the semantic candidates alone, every
graph score defaulted to 0: what a query degrades to when the graph
store is unreachable. -/
def semanticOnlyResult (cfg : PipelineConfig) (env : RetrievalEnv)
    (hits : List SemanticHit) : PackedContext :=
  packContext cfg.budget
    ((deduplicate cfg.overlapThreshold
        (rankCandidates cfg.weights (hits.map (fun x => hydrateSemantic env x 0)))).map
      Candidate.chunk)

/-- The graph candidate produced by the C6 witness graph. -/
def gcWitness : GraphCandidate :=
  { entity := 1, hop := 1, etype := EdgeType.callsE, score := 1 / 2 }

/-- An entry of the ChromaDB `code_chunks` collection as populated by
the indexing loop of `walkthrough1.md`: embedding, document text, and
the metadata triple (file path, start line, end line). -/
structure VectorEntry where
  embedding : List ℚ
  document : String
  file_path : String
  start_line : Nat
  end_line : Nat
  deriving Repr, DecidableEq

/-- Squared euclidean distance between two embeddings, the similarity
measure of the vector store query. -/
def sqDist (u v : List ℚ) : ℚ :=
  ((u.zip v).map (fun p => (p.1 - p.2) ^ 2)).sum

/-- Entry `a` is at least as close to the query embedding as entry
`b`. -/
def distRel (q : List ℚ) (a b : VectorEntry) : Prop :=
  sqDist q a.embedding ≤ sqDist q b.embedding

instance (q : List ℚ) (a b : VectorEntry) : Decidable (distRel q a b) := by
  unfold distRel
  infer_instance

instance (q : List ℚ) : IsTotal VectorEntry (distRel q) where
  total a b := le_total (sqDist q a.embedding) (sqDist q b.embedding)

instance (q : List ℚ) : IsTrans VectorEntry (distRel q) where
  trans _ _ _ hab hbc := le_trans hab hbc

/-- The vector store query of `walkthrough1.md` (`collection.query`):
the `nResults` entries of the collection nearest to the query
embedding, in order of increasing distance. -/
def collectionQuery (entries : List VectorEntry) (q : List ℚ) (nResults : Nat) :
    List VectorEntry :=
  (entries.insertionSort (distRel q)).take nResults

/-- The code context retrieval of the chat completion endpoint as
fixed in `walkthrough1.md`: a collection query with three results, the
three chunks nearest to the query embedding by embedding similarity
alone, with no graph expansion, hybrid ranking, deduplication or
budget packing on this path. -/
def chatContextChunks (entries : List VectorEntry) (q : List ℚ) : List VectorEntry :=
  collectionQuery entries q 3

/-- A chunker output record as consumed by the indexing loop of
`walkthrough1.md`: the line fields may be absent, in which case the
chunk.get calls of the loop default them to 0. -/
structure RawChunk where
  content : String
  start_line : Option Nat
  end_line : Option Nat
  deriving Repr, DecidableEq

/-- The metadata record stored with each embedding by the indexing
loop. -/
structure StoredMetadata where
  file_path : String
  start_line : Nat
  end_line : Nat
  deriving Repr, DecidableEq

/-- The metadata construction of the indexing loop of
`walkthrough1.md`: the file path together with the start and end line
values of the chunk, each defaulted to 0 when the chunker output lacks
it. -/
def storeChunkMetadata (filePath : String) (c : RawChunk) : StoredMetadata :=
  { file_path := filePath, start_line := c.start_line.getD 0, end_line := c.end_line.getD 0 }

/-- Concrete entries for the chat-retrieval witness, at one-dimensional
embeddings 0, 1, 2 and 3 with query embedding 0. -/
def entryA : VectorEntry :=
  { embedding := [0], document := "a", file_path := "fa", start_line := 1, end_line := 2 }

def entryB : VectorEntry :=
  { embedding := [1], document := "b", file_path := "fb", start_line := 1, end_line := 2 }

def entryC : VectorEntry :=
  { embedding := [2], document := "c", file_path := "fc", start_line := 1, end_line := 2 }

def entryD : VectorEntry :=
  { embedding := [3], document := "d", file_path := "fd", start_line := 1, end_line := 2 }

/-- Three rank-ordered chunks of 400 tokens each, for the packer
scenario of spec section 8 and the Context Packer walkthrough of
`BACKEND_TESTING.md`. -/
def chunk400a : Chunk := { id := 1, filePath := "a", startLine := 1, endLine := 40, text := "x", tokenCount := 400 }

def chunk400b : Chunk := { id := 2, filePath := "b", startLine := 1, endLine := 40, text := "y", tokenCount := 400 }

def chunk400c : Chunk := { id := 3, filePath := "c", startLine := 1, endLine := 40, text := "z", tokenCount := 400 }

/-- Chunks for the no-revisit scenario: a skipped chunk stays excluded
even though a later smaller chunk fits. -/
def chunk400d : Chunk := { id := 4, filePath := "d", startLine := 1, endLine := 40, text := "p", tokenCount := 400 }

def chunk300d : Chunk := { id := 5, filePath := "d", startLine := 41, endLine := 70, text := "q", tokenCount := 300 }

def chunk100d : Chunk := { id := 6, filePath := "d", startLine := 71, endLine := 80, text := "r", tokenCount := 100 }

/-- A concrete semantic hit used by the pipeline witnesses. -/
def hitWitness : SemanticHit := { chunk := chunk400a, similarity := 9 / 10 }

/-- A concrete environment with one semantic hit and an unreachable
graph store. -/
def envGraphDown : RetrievalEnv :=
  { vectorHits := some [hitWitness], graphEdges := none,
    chunkOf := fun _ => none, healthOf := fun _ => none, recencyOf := fun _ => 0 }

/-- A concrete environment whose vector store is unreachable. -/
def envNoIndex : RetrievalEnv :=
  { vectorHits := none, graphEdges := none,
    chunkOf := fun _ => none, healthOf := fun _ => none, recencyOf := fun _ => 0 }

/-- A concrete pipeline configuration with the default weights. -/
def cfgWitness : PipelineConfig :=
  { weights := defaultWeights, overlapThreshold := 1 / 2, budget := 1000,
    maxHops := 2, nodeCap := 200, edgeW := fun _ => 1 }

/-- A first candidate for the ranking witness. -/
def candRankA : Candidate :=
  { chunk := { id := 1, filePath := "u", startLine := 1, endLine := 5, text := "a", tokenCount := 10 },
    semanticScore := 1, graphScore := 0, healthScore := 1 / 2, recencyScore := 0 }

/-- A second candidate for the ranking witness, with the same combined
score as the first but a different chunk identifier. -/
def candRankB : Candidate :=
  { chunk := { id := 2, filePath := "v", startLine := 1, endLine := 5, text := "b", tokenCount := 10 },
    semanticScore := 1, graphScore := 0, healthScore := 1 / 2, recencyScore := 0 }

lemma packGo_spec (budget : Nat) :
    ∀ (cands : List Chunk) (used : Nat), used ≤ budget →
      (packGo budget used cands).2.2
        = used + ((packGo budget used cands).1.map Chunk.tokenCount).sum
      ∧ (packGo budget used cands).2.2 ≤ budget
      ∧ (packGo budget used cands).1.Sublist cands := by
  intro cands
  induction cands with
  | nil =>
    intro used hu
    simp [packGo, hu]
  | cons c rest ih =>
    intro used hu
    by_cases h : used + c.tokenCount ≤ budget
    · have := ih (used + c.tokenCount) h
      simp only [packGo, if_pos h]
      refine ⟨by rw [this.1]; ring_nf; simp [Nat.add_assoc], this.2.1, List.Sublist.cons₂ c this.2.2⟩
    · have := ih used hu
      simp only [packGo, if_neg h]
      exact ⟨this.1, this.2.1, List.Sublist.cons c this.2.2⟩

lemma dedupGo_sublist (thr : ℚ) :
    ∀ (l kept : List Candidate), (dedupGo thr kept l).Sublist l := by
  intro l
  induction l with
  | nil => intro kept; simp [dedupGo]
  | cons c rest ih =>
    intro kept
    by_cases h : kept.any (fun k => dupAgainst thr k c)
    · simpa [dedupGo, h] using List.Sublist.cons c (ih kept)
    · simpa [dedupGo, h] using List.Sublist.cons₂ c (ih (kept ++ [c]))

lemma dedupGo_removed_justified (thr : ℚ) :
    ∀ (l kept : List Candidate) (c : Candidate), c ∈ l → c ∉ dedupGo thr kept l →
      ∃ k, (k ∈ kept ∨ k ∈ dedupGo thr kept l)
        ∧ dupAgainst thr k c = true := by
  intro l
  induction l with
  | nil => intro kept c hc; simp at hc
  | cons a rest ih =>
    intro kept c hc hout
    by_cases h : kept.any (fun k => dupAgainst thr k a)
    · rw [dedupGo, if_pos h] at hout ⊢
      rcases List.mem_cons.mp hc with rfl | hcr
      · obtain ⟨k, hk, hov⟩ := List.any_eq_true.mp h
        exact ⟨k, Or.inl hk, hov⟩
      · exact ih kept c hcr hout
    · rw [dedupGo, if_neg h] at hout ⊢
      have hout₂ : c ∉ dedupGo thr (kept ++ [a]) rest := fun hm =>
        hout (List.mem_cons_of_mem a hm)
      have hne : c ≠ a := fun he => hout (he ▸ List.mem_cons_self a _)
      have hcr : c ∈ rest := by
        rcases List.mem_cons.mp hc with he | hcr
        · exact absurd he hne
        · exact hcr
      obtain ⟨k, hk, hov⟩ := ih (kept ++ [a]) c hcr hout₂
      rcases hk with hk | hk
      · rcases List.mem_append.mp hk with hk | hk
        · exact ⟨k, Or.inl hk, hov⟩
        · have hka : k = a := by simpa using hk
          exact ⟨k, Or.inr (hka ▸ List.mem_cons_self a _), hov⟩
      · exact ⟨k, Or.inr (List.mem_cons_of_mem a hk), hov⟩

lemma dedupGo_nil (thr : ℚ) (kept : List Candidate) : dedupGo thr kept [] = [] := rfl

lemma candSpan_overlap :
    spanOverlap defaultOverlapThreshold candSpanA.chunk candSpanB.chunk = true := by
  norm_num [spanOverlap, candSpanA, candSpanB, spanLen, overlapLen, defaultOverlapThreshold]

lemma candSpan_dedup_eval :
    deduplicate defaultOverlapThreshold [candSpanA, candSpanB] = [candSpanA] := by
  rw [deduplicate, dedupGo]
  simp only [List.any_nil, Bool.false_eq_true, if_false, List.nil_append]
  rw [dedupGo]
  simp [dupAgainst, candSpan_overlap, dedupGo_nil]

lemma candDup_dedup_eval :
    deduplicate defaultOverlapThreshold [candDupA, candDupB] = [candDupA] := by
  rw [deduplicate, dedupGo]
  simp only [List.any_nil, Bool.false_eq_true, if_false, List.nil_append]
  rw [dedupGo]
  simp [dupAgainst, candDupA, candDupB, dedupGo_nil]

lemma sorted_perm_eq_of_antisymmOn {α : Type} {r : α → α → Prop} :
    ∀ {l₁ l₂ : List α}, l₁.Perm l₂ → l₁.Sorted r → l₂.Sorted r →
      (∀ a ∈ l₁, ∀ b ∈ l₁, r a b → r b a → a = b) → l₁ = l₂ := by
  intro l₁
  induction l₁ with
  | nil =>
    intro l₂ hp _ _ _
    exact (hp.symm.eq_nil).symm
  | cons a t ih =>
    intro l₂ hp hs₁ hs₂ hanti
    cases l₂ with
    | nil => exact absurd hp.eq_nil (by simp)
    | cons b t₂ =>
      have hb : b ∈ a :: t := hp.symm.subset (List.mem_cons_self b t₂)
      have hab : a = b := by
        rcases List.mem_cons.mp hb with h | hbt
        · exact h.symm
        rcases List.mem_cons.mp (hp.subset (List.mem_cons_self a t)) with h | hat
        · exact h
        exact hanti a (List.mem_cons_self a t) b hb
          ((List.sorted_cons.mp hs₁).1 b hbt) ((List.sorted_cons.mp hs₂).1 a hat)
      subst hab
      have hp' : t.Perm t₂ := (List.perm_cons a).mp hp
      have ht : t = t₂ :=
        ih hp' (List.sorted_cons.mp hs₁).2 (List.sorted_cons.mp hs₂).2
          (fun x hx y hy => hanti x (List.mem_cons_of_mem a hx) y (List.mem_cons_of_mem a hy))
      rw [ht]

lemma annotateLevels_mem (edgeW : EdgeType → ℚ) :
    ∀ (lvls : List (List (Nat × EdgeType))) (h : Nat) (g : GraphCandidate),
      g ∈ annotateLevels edgeW h lvls →
      g.score = edgeW g.etype * (1 / (1 + (g.hop : ℚ))) ∧ h ≤ g.hop := by
  intro lvls
  induction lvls with
  | nil => intro h g hg; simp [annotateLevels] at hg
  | cons lvl rest ih =>
    intro h g hg
    rcases List.mem_append.mp hg with hg | hg
    · obtain ⟨p, _, rfl⟩ := List.mem_map.mp hg
      exact ⟨rfl, Nat.le_refl h⟩
    · obtain ⟨hs, hh⟩ := ih (h + 1) g hg
      exact ⟨hs, Nat.le_of_succ_le hh⟩

lemma annotateLevels_mem_head (edgeW : EdgeType → ℚ) (h : Nat)
    (lvl : List (Nat × EdgeType)) (g : GraphCandidate)
    (hg : g ∈ lvl.map (fun p =>
      ({ entity := p.1, hop := h, etype := p.2,
         score := edgeW p.2 * (1 / (1 + (h : ℚ))) } : GraphCandidate))) :
    g.hop = h := by
  obtain ⟨p, _, rfl⟩ := List.mem_map.mp hg
  rfl

lemma annotateLevels_hop_pairwise (edgeW : EdgeType → ℚ) :
    ∀ (lvls : List (List (Nat × EdgeType))) (h : Nat),
      (annotateLevels edgeW h lvls).Pairwise (fun a b => a.hop ≤ b.hop) := by
  intro lvls
  induction lvls with
  | nil => intro h; simp [annotateLevels]
  | cons lvl rest ih =>
    intro h
    rw [annotateLevels, List.pairwise_append]
    refine ⟨?_, ih (h + 1), ?_⟩
    · refine List.Pairwise.map _ ?_ (List.pairwise_of_forall (fun _ _ => trivial) )
      intro a b _
      exact Nat.le_refl h
    · intro a ha b hb
      have h1 : a.hop = h := annotateLevels_mem_head edgeW h lvl a ha
      have h2 : h + 1 ≤ b.hop := (annotateLevels_mem edgeW rest (h + 1) b hb).2
      omega

lemma graphScoreFor_nil (c : Chunk) : graphScoreFor [] c = 0 := rfl

lemma graphOnlyCandidates_nil (env : RetrievalEnv) (hits : List SemanticHit) :
    graphOnlyCandidates env hits [] = [] := rfl

lemma chat_witness_eval :
    chatContextChunks [entryA, entryB, entryC, entryD] [0] = [entryA, entryB, entryC] := by
  have hAB : distRel [0] entryA entryB := by
    norm_num [distRel, sqDist, entryA, entryB]
  have hBC : distRel [0] entryB entryC := by
    norm_num [distRel, sqDist, entryB, entryC]
  have hCD : distRel [0] entryC entryD := by
    norm_num [distRel, sqDist, entryC, entryD]
  simp [chatContextChunks, collectionQuery, List.insertionSort, List.orderedInsert,
    hAB, hBC, hCD, List.take]

end VibeAgent

namespace VibeAgent

/-- C1: for every candidate, the hybrid ranker combines the four signal
scores linearly with the configured weights, and the default weights
are semantic 0.60, graph 0.25, health 0.10, recency 0.05. -/
theorem combined_score_default_weights :
    (∀ c : Candidate,
      combinedScore defaultWeights c
        = (60 / 100) * c.semanticScore + (25 / 100) * c.graphScore
          + (10 / 100) * c.healthScore + (5 / 100) * c.recencyScore)
    ∧ defaultWeights.semantic = 60 / 100
    ∧ defaultWeights.graph = 25 / 100
    ∧ defaultWeights.health = 10 / 100
    ∧ defaultWeights.recency = 5 / 100 := by
  refine ⟨fun c => ?_, rfl, rfl, rfl, rfl⟩
  simp [combinedScore, defaultWeights]

/-- C2: every Packed Context produced by the packer keeps its total
token count (the sum of the precomputed token counts of the included
chunks) within the configured budget, and the included chunks form a
sublist of the input, so every chunk is taken whole or not at all. -/
theorem packed_context_budget_invariant :
    ∀ (budget : Nat) (cands : List Chunk),
      (packContext budget cands).totalTokens
        = ((packContext budget cands).included.map Chunk.tokenCount).sum
      ∧ (packContext budget cands).totalTokens ≤ budget
      ∧ (packContext budget cands).included.Sublist cands := by
  intro budget cands
  have h := packGo_spec budget cands 0 (Nat.zero_le budget)
  simpa [packContext] using h

/-- C4: the packer is greedy in rank order.  With budget 1000 and three
candidates of 400 tokens each it includes the first two (800 tokens),
excludes the third with reason `over_budget`, and reports utilization
0.8; and once a candidate is skipped for exceeding the remaining budget
it stays excluded even when a later, smaller candidate fits (budget
500 with token counts 400, 300, 100: the 300-token candidate is
skipped, the 100-token one is still included). -/
theorem context_packer_greedy_scenario :
    (packContext 1000 [chunk400a, chunk400b, chunk400c]).included = [chunk400a, chunk400b]
    ∧ (packContext 1000 [chunk400a, chunk400b, chunk400c]).excluded
        = [(chunk400c, ExclusionReason.over_budget)]
    ∧ (packContext 1000 [chunk400a, chunk400b, chunk400c]).totalTokens = 800
    ∧ utilization (packContext 1000 [chunk400a, chunk400b, chunk400c]) = 8 / 10
    ∧ (packContext 500 [chunk400d, chunk300d, chunk100d]).included = [chunk400d, chunk100d]
    ∧ (packContext 500 [chunk400d, chunk300d, chunk100d]).excluded
        = [(chunk300d, ExclusionReason.over_budget)] := by
  refine ⟨by decide, by decide, by decide, ?_, by decide, by decide⟩
  norm_num [utilization, packContext, packGo, chunk400a, chunk400b, chunk400c]

/-- C5: the deduplicator keeps only the highest-ranked candidate of
each group of same-file candidates whose spans overlap by at least the
threshold fraction of the smaller span, and likewise of each group of
exact content duplicates.  In the concrete scenario of two same-file
candidates with line ranges 10 to 50 and 30 to 60 only the
higher-ranked one survives the default 50 percent threshold, and of
two cross-file candidates with identical chunk text only the
higher-ranked one survives; in general the retained list is a sublist
of the ranked input (rank order preserved) and every removed candidate
either overlaps a retained candidate by at least the threshold or is
an exact content duplicate of a retained candidate. -/
theorem dedup_overlap_removal :
    deduplicate defaultOverlapThreshold [candSpanA, candSpanB] = [candSpanA]
    ∧ deduplicate defaultOverlapThreshold [candDupA, candDupB] = [candDupA]
    ∧ (∀ (thr : ℚ) (l : List Candidate), (deduplicate thr l).Sublist l)
    ∧ ∀ (thr : ℚ) (l : List Candidate) (c : Candidate),
        c ∈ l → c ∉ deduplicate thr l →
        ∃ k, k ∈ deduplicate thr l
          ∧ (spanOverlap thr k.chunk c.chunk = true ∨ k.chunk.text = c.chunk.text) := by
  refine ⟨candSpan_dedup_eval, candDup_dedup_eval, fun thr l => dedupGo_sublist thr l [], ?_⟩
  intro thr l c hc hout
  obtain ⟨k, hk, hj⟩ := dedupGo_removed_justified thr l [] c hc hout
  rcases hk with hk | hk
  · simp at hk
  · refine ⟨k, hk, ?_⟩
    simpa [dupAgainst] using hj

/-- C3: the ranked output is a deterministic function of the candidate
set alone: for any two insertion orders of the same candidates (with
the chunk identifiers distinct, as guaranteed by the merge step that
deduplicates by chunk identifier) the ranker produces the identical
list, and that list is sorted descending by combined score with ties
broken by chunk identifier; hence running the pipeline twice on an
unchanged index yields byte-identical output. -/
theorem hybrid_rank_deterministic :
    ∀ (w : Weights) (l₁ l₂ : List Candidate), l₁.Perm l₂ →
      (l₁.map (fun c => c.chunk.id)).Nodup →
      rankCandidates w l₁ = rankCandidates w l₂
      ∧ (rankCandidates w l₁).Sorted (rankRel w) := by
  intro w l₁ l₂ hp hnd
  have hs₁ : (rankCandidates w l₁).Sorted (rankRel w) :=
    List.sorted_insertionSort (rankRel w) l₁
  have hs₂ : (rankCandidates w l₂).Sorted (rankRel w) :=
    List.sorted_insertionSort (rankRel w) l₂
  have hperm : (rankCandidates w l₁).Perm (rankCandidates w l₂) :=
    (List.perm_insertionSort (rankRel w) l₁).trans
      (hp.trans (List.perm_insertionSort (rankRel w) l₂).symm)
  refine ⟨sorted_perm_eq_of_antisymmOn hperm hs₁ hs₂ ?_, hs₁⟩
  intro a ha b hb hab hba
  have ha₁ : a ∈ l₁ := (List.perm_insertionSort (rankRel w) l₁).subset ha
  have hb₁ : b ∈ l₁ := (List.perm_insertionSort (rankRel w) l₁).subset hb
  rcases hab with h1 | ⟨he1, hle1⟩
  · rcases hba with h2 | ⟨he2, _⟩
    · exact absurd h1 (lt_asymm h2)
    · exact absurd (he2 ▸ h1) (lt_irrefl _)
  · rcases hba with h2 | ⟨_, hle2⟩
    · exact absurd (he1 ▸ h2) (lt_irrefl _)
    · exact List.inj_on_of_nodup_map hnd ha₁ hb₁ (Nat.le_antisymm hle1 hle2)

/-- Concrete witness for C3: two equal-score candidates with distinct
chunk identifiers are ranked identically from either insertion order. -/
theorem hybrid_rank_deterministic_witness :
    rankCandidates defaultWeights [candRankA, candRankB]
      = rankCandidates defaultWeights [candRankB, candRankA] :=
  (hybrid_rank_deterministic defaultWeights [candRankA, candRankB] [candRankB, candRankA]
    (List.Perm.swap candRankB candRankA []) (by simp [candRankA, candRankB])).1

/-- C6: every entity returned by graph expansion is annotated with
graph relevance score `edge_weight * (1 / (1 + hop_distance))` at a hop
distance of at least 1; the cap truncates the fixed breadth-first
output by dropping the nodes beyond the cap (a prefix is kept, nothing
is sampled); and the breadth-first output lists hop distances in
non-decreasing order (lowest hop distance first). -/
theorem graph_expansion_score_cap :
    ∀ (edges : List Edge) (maxHops cap : Nat) (edgeW : EdgeType → ℚ) (seeds : List Nat),
      (∀ g ∈ graphExpand edges maxHops cap edgeW seeds,
        g.score = edgeW g.etype * (1 / (1 + (g.hop : ℚ))) ∧ 1 ≤ g.hop)
      ∧ graphExpand edges maxHops cap edgeW seeds
          = (graphExpandAll edges maxHops edgeW seeds).take cap
      ∧ ((graphExpandAll edges maxHops edgeW seeds).map GraphCandidate.hop).Sorted (· ≤ ·) := by
  intro edges maxHops cap edgeW seeds
  refine ⟨fun g hg => ?_, rfl, ?_⟩
  · have hall : g ∈ graphExpandAll edges maxHops edgeW seeds :=
      List.take_subset cap _ hg
    exact annotateLevels_mem edgeW _ 1 g hall
  · rw [List.Sorted, List.pairwise_map]
    exact annotateLevels_hop_pairwise edgeW _ 1

/-- Concrete witness for C6: a one-edge graph expanded from seed 0
yields entity 1 at hop distance 1 with score one half. -/
theorem graph_expansion_score_cap_witness :
    gcWitness.score = (fun _ => (1 : ℚ)) gcWitness.etype * (1 / (1 + (gcWitness.hop : ℚ)))
      ∧ 1 ≤ gcWitness.hop :=
  (graph_expansion_score_cap [{ src := 0, etype := EdgeType.callsE, dst := 1 }] 2 5
      (fun _ => 1) [0]).1 gcWitness
    (by
      norm_num [gcWitness, graphExpand, graphExpandAll, bfsLevels, addNew, neighborsOf,
        annotateLevels, List.flatMap, List.filter, List.take])

/-- C7: a weight configuration whose four weights do not sum to 1.0
within tolerance 1e-6 is rejected at load time with `InvalidWeights`, a
configuration within tolerance is accepted, and no query evaluation
ever produces the `InvalidWeights` error. -/
theorem invalid_weights_startup_only :
    ∀ (w : Weights),
      (¬ |weightSum w - 1| ≤ weightTolerance →
        validateWeights w = Except.error RetrievalError.invalidWeights)
      ∧ (|weightSum w - 1| ≤ weightTolerance → validateWeights w = Except.ok ())
      ∧ ∀ (cfg : PipelineConfig) (env : RetrievalEnv),
          runQuery cfg env ≠ Except.error RetrievalError.invalidWeights := by
  intro w
  refine ⟨fun h => by simp [validateWeights, h], fun h => by simp [validateWeights, h], ?_⟩
  intro cfg env
  rcases henv : env.vectorHits with _ | hits
  · simp [runQuery, henv]
  · cases hits with
    | nil => simp [runQuery, henv]
    | cons h hs => simp [runQuery, henv]

/-- Concrete witness for C7: the default weights pass validation, a
configuration summing to 2 is rejected with `InvalidWeights`, and a
concrete query does not fail with `InvalidWeights`. -/
theorem invalid_weights_startup_only_witness :
    validateWeights defaultWeights = Except.ok ()
      ∧ validateWeights { semantic := 1, graph := 1, health := 0, recency := 0 }
          = Except.error RetrievalError.invalidWeights
      ∧ runQuery cfgWitness envNoIndex ≠ Except.error RetrievalError.invalidWeights :=
  ⟨(invalid_weights_startup_only defaultWeights).2.1
      (by norm_num [weightSum, defaultWeights, weightTolerance]),
    (invalid_weights_startup_only { semantic := 1, graph := 1, health := 0, recency := 0 }).1
      (by norm_num [weightSum, weightTolerance]),
    (invalid_weights_startup_only defaultWeights).2.2 cfgWitness envNoIndex⟩

/-- C8: an unreachable graph store does not abort a query: when
semantic search succeeds the pipeline still returns a Packed Context
built from the semantic candidates alone, every candidate carrying
graph score 0; an empty or unreachable vector store instead aborts the
query with `IndexUnavailable`. -/
theorem graph_degradation_index_fatal :
    ∀ (cfg : PipelineConfig) (env : RetrievalEnv) (h : SemanticHit) (hs : List SemanticHit),
      (env.vectorHits = some (h :: hs) → env.graphEdges = none →
        runQuery cfg env = Except.ok (semanticOnlyResult cfg env (h :: hs))
        ∧ ∀ x ∈ (h :: hs).map (fun y => hydrateSemantic env y 0), x.graphScore = 0)
      ∧ (env.vectorHits = none →
        runQuery cfg env = Except.error RetrievalError.indexUnavailable)
      ∧ (env.vectorHits = some [] →
        runQuery cfg env = Except.error RetrievalError.indexUnavailable) := by
  intro cfg env h hs
  refine ⟨fun hv hg => ⟨?_, ?_⟩, fun hv => by simp [runQuery, hv], fun hv => by simp [runQuery, hv]⟩
  · simp [runQuery, hv, hg, semanticOnlyResult, graphScoreFor_nil, graphOnlyCandidates_nil]
  · intro x hx
    obtain ⟨y, _, rfl⟩ := List.mem_map.mp hx
    rfl

/-- Concrete witness for C8: with one semantic hit and the graph store
down, the query returns the semantic-only Packed Context with graph
score 0, while an unreachable vector store yields `IndexUnavailable`. -/
theorem graph_degradation_index_fatal_witness :
    (runQuery cfgWitness envGraphDown
        = Except.ok (semanticOnlyResult cfgWitness envGraphDown [hitWitness])
      ∧ ∀ x ∈ [hitWitness].map (fun y => hydrateSemantic envGraphDown y 0), x.graphScore = 0)
      ∧ runQuery cfgWitness envNoIndex = Except.error RetrievalError.indexUnavailable :=
  ⟨(graph_degradation_index_fatal cfgWitness envGraphDown hitWitness []).1 rfl rfl,
    (graph_degradation_index_fatal cfgWitness envNoIndex hitWitness []).2.1 rfl⟩

/-- C9: the chat-completion context path returns exactly the 3 nearest
chunks to the query embedding by similarity alone: the number returned
is the smaller of 3 and the collection size, every returned entry comes
from the collection, and every returned entry is at least as close to
the query as every entry left out; the path is the plain collection
query with three results, with none of the hybrid pipeline applied. -/
theorem chat_context_top3_semantic :
    ∀ (entries : List VectorEntry) (q : List ℚ),
      chatContextChunks entries q = collectionQuery entries q 3
      ∧ (chatContextChunks entries q).length = min 3 entries.length
      ∧ (∀ e ∈ chatContextChunks entries q, e ∈ entries)
      ∧ ∀ e ∈ chatContextChunks entries q, ∀ f ∈ entries,
          f ∉ chatContextChunks entries q →
          sqDist q e.embedding ≤ sqDist q f.embedding := by
  intro entries q
  have hperm := List.perm_insertionSort (distRel q) entries
  refine ⟨rfl, ?_, ?_, ?_⟩
  · rw [chatContextChunks, collectionQuery, List.length_take, hperm.length_eq]
  · intro e he
    exact hperm.subset (List.take_subset 3 _ he)
  · intro e he f hf hfn
    have hsorted : (entries.insertionSort (distRel q)).Sorted (distRel q) :=
      List.sorted_insertionSort (distRel q) entries
    have hsplit := List.take_append_drop 3 (entries.insertionSort (distRel q))
    have hpw : ((entries.insertionSort (distRel q)).take 3
        ++ (entries.insertionSort (distRel q)).drop 3).Pairwise (distRel q) := by
      rw [hsplit]
      exact hsorted
    have hcross := (List.pairwise_append.mp hpw).2.2
    have hfs : f ∈ entries.insertionSort (distRel q) := hperm.symm.subset hf
    have hfd : f ∈ (entries.insertionSort (distRel q)).drop 3 := by
      rw [← hsplit] at hfs
      rcases List.mem_append.mp hfs with hft | hfd
      · exact absurd hft hfn
      · exact hfd
    exact hcross e he f hfd

/-- Concrete witness for C9: with four entries at distances 0, 1, 4, 9
the retained nearest entry is at least as close as the omitted farthest
one. -/
theorem chat_context_top3_semantic_witness :
    sqDist [0] entryA.embedding ≤ sqDist [0] entryD.embedding :=
  (chat_context_top3_semantic [entryA, entryB, entryC, entryD] [0]).2.2.2 entryA
    (by rw [chat_witness_eval]; simp)
    entryD (by simp)
    (by
      rw [chat_witness_eval]
      norm_num [entryA, entryB, entryC, entryD])

/-- C10: for every chunk whose chunker output lacks a start or end
line, the metadata stored by the indexing loop records 0 for that
field, which is below the smallest valid 1-indexed line number. -/
theorem index_metadata_line_default_zero :
    ∀ (fp : String) (c : RawChunk),
      (c.start_line = none →
        (storeChunkMetadata fp c).start_line = 0
        ∧ ¬ 1 ≤ (storeChunkMetadata fp c).start_line)
      ∧ (c.end_line = none →
        (storeChunkMetadata fp c).end_line = 0
        ∧ ¬ 1 ≤ (storeChunkMetadata fp c).end_line) := by
  intro fp c
  constructor
  · intro h
    simp [storeChunkMetadata, h]
  · intro h
    simp [storeChunkMetadata, h]

/-- Concrete witness for C10: a chunker record with no line fields is
stored with both line numbers 0. -/
theorem index_metadata_line_default_zero_witness :
    (storeChunkMetadata "m" { content := "x", start_line := none, end_line := none }).start_line = 0
      ∧ ¬ 1 ≤ (storeChunkMetadata "m"
          { content := "x", start_line := none, end_line := none }).start_line :=
  (index_metadata_line_default_zero "m"
    { content := "x", start_line := none, end_line := none }).1 rfl

/-- Concrete witness for C5: in the two-candidate span scenario the
removed lower-ranked candidate overlaps a retained one or duplicates
its text. -/
theorem dedup_overlap_removal_witness :
    ∃ k, k ∈ deduplicate defaultOverlapThreshold [candSpanA, candSpanB]
      ∧ (spanOverlap defaultOverlapThreshold k.chunk candSpanB.chunk = true
        ∨ k.chunk.text = candSpanB.chunk.text) :=
  dedup_overlap_removal.2.2.2 defaultOverlapThreshold [candSpanA, candSpanB] candSpanB
    (by simp)
    (by
      rw [candSpan_dedup_eval]
      norm_num [candSpanA, candSpanB])

end VibeAgent
